import Mathlib

/-! Verification development for the RStream audio-streaming repository.

The definitions below are a shallow embedding of the Rust sources:
bytes are natural numbers below 256, byte buffers are lists, fallible
code returns an explicit result type, and code that can hit a Rust
panic (out-of-bounds slicing, unwrap on None, the todo and
unimplemented markers) returns a dedicated crash value. -/

namespace RStream

/-! ## Bincode integer encoding (standard configuration)

The repository serializes protocol values with bincode 2 under the
standard configuration: little-endian byte order and variable-length
integer encoding.  An unsigned integer below 251 is one byte; a value
below 2 to the 16 is the marker byte 251 followed by two little-endian
bytes; a larger 32-bit value is the marker byte 252 followed by four
little-endian bytes.  A u8 field is written as one raw byte.  An enum
discriminant is encoded as its u32 variant index. -/

def encU32 (n : Nat) : List Nat :=
  if n < 251 then [n]
  else if n < 2 ^ 16 then [251, n % 256, (n / 2 ^ 8) % 256]
  else [252, n % 256, (n / 2 ^ 8) % 256, (n / 2 ^ 16) % 256, (n / 2 ^ 24) % 256]

def decU32 : List Nat → Option (Nat × List Nat)
  | [] => none
  | b :: rest =>
    if b < 251 then some (b, rest)
    else if b = 251 then
      match rest with
      | b0 :: b1 :: r => some (b0 + 2 ^ 8 * b1, r)
      | _ => none
    else if b = 252 then
      match rest with
      | b0 :: b1 :: b2 :: b3 :: r =>
          some (b0 + 2 ^ 8 * b1 + 2 ^ 16 * b2 + 2 ^ 24 * b3, r)
      | _ => none
    else none

def decU8 : List Nat → Option (Nat × List Nat)
  | [] => none
  | b :: rest => some (b, rest)

/-! ## Protocol data model (src/protocol.rs) -/

inductive MessageType
  | hello
  | ok
  | bye
  | startPlaying
  | stopPlaying
  | audioHeader
deriving DecidableEq, Repr

def MessageType.toIdx : MessageType → Nat
  | .hello => 0
  | .ok => 1
  | .bye => 2
  | .startPlaying => 3
  | .stopPlaying => 4
  | .audioHeader => 5

def MessageType.ofIdx (n : Nat) : Option MessageType :=
  if n = 0 then some .hello
  else if n = 1 then some .ok
  else if n = 2 then some .bye
  else if n = 3 then some .startPlaying
  else if n = 4 then some .stopPlaying
  else if n = 5 then some .audioHeader
  else none

inductive SampleFormat
  | int
  | float
deriving DecidableEq, Repr

def SampleFormat.toIdx : SampleFormat → Nat
  | .int => 0
  | .float => 1

def SampleFormat.ofIdx (n : Nat) : Option SampleFormat :=
  if n = 0 then some .int else if n = 1 then some .float else none

structure ProtocolInfo where
  version : Nat
deriving DecidableEq, Repr

structure AudioHeader where
  sample_rate : Nat
  channels : Nat
  bits_per_sample : Nat
  sample_format : SampleFormat
deriving DecidableEq, Repr

/-- Result of running Rust code that may panic: an out-of-bounds slice
index, an unwrap of None, or one of the todo and unimplemented markers
aborts with crash instead of returning a value. -/
inductive RResult (α : Type)
  | crash
  | ret (a : α)
deriving DecidableEq, Repr

def PROTOCOL_MAGIC : Nat := 0xA1B2C3D4

/-- Translation of make_client_hello_message: the bincode encoding of the
u32 magic constant followed by the raw byte cast of MessageType::Hello. -/
def make_client_hello_message : List Nat :=
  encU32 PROTOCOL_MAGIC ++ [MessageType.hello.toIdx]

def get_hello_message_size : Nat := make_client_hello_message.length

/-- Translation of check_client_hello_message.  The source decodes the
magic from the four-byte slice data[0..4] even though the bincode varint
encoding of the magic occupies five bytes, and reads the message type
from data[4]. -/
def check_client_hello_message (data : List Nat) : Bool :=
  if data.length ≠ get_hello_message_size then false
  else
    match decU32 (data.take 4) with
    | none => false
    | some (magic, _) =>
        decide (magic = PROTOCOL_MAGIC) &&
          decide (data.getD 4 0 = MessageType.hello.toIdx)

def ProtocolInfo.new : ProtocolInfo := ⟨1⟩

def encodeProtocolInfo (p : ProtocolInfo) : List Nat := [p.version % 256]

/-- Translation of make_server_hello_message: the encoded Hello variant
followed by the encoded ProtocolInfo with version 1. -/
def make_server_hello_message : List Nat :=
  encU32 MessageType.hello.toIdx ++ encodeProtocolInfo ProtocolInfo.new

def decodeProtocolInfo (bytes : List Nat) : Option ProtocolInfo :=
  match decU8 bytes with
  | some (v, _) => some ⟨v⟩
  | none => none

/-- Translation of extract_protocol_info.  The source slices data[1..]
before decoding; on an empty input that slice operation is out of bounds
and the function panics. -/
def extract_protocol_info (data : List Nat) : RResult (Option ProtocolInfo) :=
  if data.length < 1 then .crash
  else .ret (decodeProtocolInfo (data.drop 1))

/-- Translation of extract_message_type: an explicit emptiness check,
then a bincode decode of the discriminant from the one-byte slice
data[0..1]. -/
def extract_message_type (data : List Nat) : Option MessageType :=
  if data.isEmpty then none
  else
    match decU32 (data.take 1) with
    | some (idx, _) => MessageType.ofIdx idx
    | none => none

def decodeAudioHeader (bytes : List Nat) : Option AudioHeader :=
  match decU32 bytes with
  | none => none
  | some (rate, r1) =>
    match decU8 r1 with
    | none => none
    | some (ch, r2) =>
      match decU8 r2 with
      | none => none
      | some (bits, r3) =>
        match decU32 r3 with
        | none => none
        | some (fi, _) =>
          match SampleFormat.ofIdx fi with
          | some f => some ⟨rate, ch, bits, f⟩
          | none => none

/-- Translation of extract_wav_header.  Like extract_protocol_info it
slices data[1..] first, which panics on an empty input. -/
def extract_wav_header (data : List Nat) : RResult (Option AudioHeader) :=
  if data.length < 1 then .crash
  else .ret (decodeAudioHeader (data.drop 1))

def encodeAudioHeader (h : AudioHeader) : List Nat :=
  encU32 h.sample_rate ++ [h.channels % 256] ++ [h.bits_per_sample % 256]
    ++ encU32 h.sample_format.toIdx

def audio_header_to_bytes (h : AudioHeader) : List Nat :=
  encU32 MessageType.audioHeader.toIdx ++ encodeAudioHeader h

def make_ok_message : List Nat := encU32 MessageType.ok.toIdx

def make_bye_message : List Nat := encU32 MessageType.bye.toIdx

def make_start_playing_message : List Nat := encU32 MessageType.startPlaying.toIdx

def make_stop_playing_message : List Nat := encU32 MessageType.stopPlaying.toIdx

def check_ok_message (data : List Nat) : Bool :=
  if data.length ≠ 1 then false
  else
    match decU32 (data.take 1) with
    | some (idx, _) =>
      match MessageType.ofIdx idx with
      | some t => decide (t = .ok)
      | none => false
    | none => false

def check_bye_message (data : List Nat) : Bool :=
  if data.length ≠ 1 then false
  else
    match decU32 (data.take 1) with
    | some (idx, _) =>
      match MessageType.ofIdx idx with
      | some t => decide (t = .bye)
      | none => false
    | none => false

/-! ## Socket expect steps (src/network/common.rs, src/server/server_manager.rs)

Every expect step performs one bounded read on the socket and branches
on its result: Ok(0), Ok(n) with the n received bytes, or Err.  The
embedding makes the read result an explicit input. -/

inductive ReadResult
  | closed
  | bytes (data : List Nat)
  | ioError
deriving DecidableEq, Repr

/-- Outcome of one expect step.  closedErr is the dedicated error built
in the Ok(0) branch, ioErr is the error wrapping the socket error,
extractErr is the error raised when the received bytes do not decode or
do not pass the check, and value is the success case. -/
inductive ExpectOut (α : Type)
  | closedErr
  | ioErr
  | extractErr
  | value (a : α)
deriving DecidableEq, Repr

def ExpectOut.isErr {α : Type} : ExpectOut α → Bool
  | .value _ => false
  | _ => true

def expect_protocol_info : ReadResult → RResult (ExpectOut ProtocolInfo)
  | .closed => .ret .closedErr
  | .bytes data =>
    match extract_protocol_info data with
    | .crash => .crash
    | .ret (some pi) => .ret (.value pi)
    | .ret none => .ret .extractErr
  | .ioError => .ret .ioErr

def expect_message_type : ReadResult → ExpectOut MessageType
  | .closed => .closedErr
  | .bytes data =>
    match extract_message_type data with
    | some t => .value t
    | none => .extractErr
  | .ioError => .ioErr

def expect_ok_message : ReadResult → ExpectOut Unit
  | .closed => .closedErr
  | .bytes data => if check_ok_message data then .value () else .extractErr
  | .ioError => .ioErr

def expect_bye_message : ReadResult → ExpectOut Unit
  | .closed => .closedErr
  | .bytes data => if check_bye_message data then .value () else .extractErr
  | .ioError => .ioErr

/-- Translation of Server::expect_client_hello.  The Ok(n) branch is
Ok(_) in the source: the received bytes are never inspected and the
step succeeds for any positive number of bytes read. -/
def expect_client_hello : ReadResult → ExpectOut Unit
  | .closed => .closedErr
  | .bytes _ => .value ()
  | .ioError => .ioErr

/-! ## Real-time playback buffer (src/audio/cpal.rs, CpalFileWrite)

The shared queue is a byte deque; the producer appends with
VecDeque::extend and the consumer callback pops whole samples from the
front.  An output sample is either the equilibrium (silence) value or a
value decoded from the popped little-endian bytes; the numeric
conversion applied to those bytes does not affect queue behavior and is
kept symbolic. -/

inductive OutSample
  | equilibrium
  | decoded (bytes : List Nat)
deriving DecidableEq, Repr

/-- Observable state of one CpalFileWrite stream: the byte queue, the
one-shot notified flag of the drain signal, and the number of
completion signals sent so far on the channel. -/
structure CbState where
  buf : List Nat
  notified : Bool
  signals : Nat
deriving DecidableEq, Repr

/-- Translation of CpalFileWrite::extract_bytes_from_buf: pop
sample_size bytes from the front of the queue, or None when fewer are
available.  The popped bytes and the remaining queue are both
returned because the embedding passes state explicitly. -/
def extract_bytes_from_buf (buf : List Nat) (sample_size : Nat) :
    Option (List Nat × List Nat) :=
  if buf.length < sample_size then none
  else some (buf.take sample_size, buf.drop sample_size)

/-- One frame of the output callback pops channels samples in a row;
each pop unwraps the Option returned by extract_bytes_from_buf, so a
failed pop is a panic. -/
def popFrameSamples : Nat → Nat → List Nat → RResult (List OutSample × List Nat)
  | 0, _, buf => .ret ([], buf)
  | n + 1, sz, buf =>
    match extract_bytes_from_buf buf sz with
    | none => .crash
    | some (bytes, rest) =>
      match popFrameSamples n sz rest with
      | .crash => .crash
      | .ret (outs, buf2) => .ret (.decoded bytes :: outs, buf2)

/-- After writing each output frame the callback sends the drain
completion signal when the queue is empty and the one-shot flag is
still unset; the flag is then set.  No code path ever clears it. -/
def drainCheck (s : CbState) : CbState :=
  if s.buf.isEmpty && !s.notified then
    { s with signals := s.signals + 1, notified := true }
  else s

/-- One iteration of the frame loop in the output callback built by
CpalFileWrite::build_stream: when the queue holds at least one full
frame of bytes the frame is decoded from the queue, otherwise every
sample of the frame is set to the equilibrium value and the queue is
left alone; then the drain check runs. -/
def processFrame (channels sample_size : Nat) (s : CbState) :
    RResult (List OutSample × CbState) :=
  if channels * sample_size ≤ s.buf.length then
    match popFrameSamples channels sample_size s.buf with
    | .crash => .crash
    | .ret (outs, buf2) => .ret (outs, drainCheck { s with buf := buf2 })
  else
    .ret (List.replicate channels .equilibrium, drainCheck s)

/-- One invocation of the output callback processes the output slice
frame by frame. -/
def runCallback (channels sample_size : Nat) :
    Nat → CbState → RResult (List OutSample × CbState)
  | 0, s => .ret ([], s)
  | k + 1, s =>
    match processFrame channels sample_size s with
    | .crash => .crash
    | .ret (outs, s2) =>
      match runCallback channels sample_size k s2 with
      | .crash => .crash
      | .ret (outs2, s3) => .ret (outs ++ outs2, s3)

/-- Translation of the queue mutation in CpalFileWrite::write: the
incoming bytes are appended to the back of the deque.  The notified
flag is not touched. -/
def writePush (data : List Nat) (s : CbState) : CbState :=
  { s with buf := s.buf ++ data }

/-- A serialized interleaving of producer and consumer turns on the
mutex-guarded queue. -/
inductive BufOp
  | push (data : List Nat)
  | callback (frames : Nat)
deriving DecidableEq, Repr

def runOps (channels sample_size : Nat) :
    List BufOp → CbState → RResult (List OutSample × CbState)
  | [], s => .ret ([], s)
  | .push d :: ops, s => runOps channels sample_size ops (writePush d s)
  | .callback k :: ops, s =>
    match runCallback channels sample_size k s with
    | .crash => .crash
    | .ret (outs, s2) =>
      match runOps channels sample_size ops s2 with
      | .crash => .crash
      | .ret (outs2, s3) => .ret (outs ++ outs2, s3)

/-- Bytes removed from the queue, in the order they were consumed:
underrun frames consume nothing. -/
def consumedOf : List OutSample → List Nat
  | [] => []
  | .equilibrium :: rest => consumedOf rest
  | .decoded bytes :: rest => bytes ++ consumedOf rest

/-- Bytes ever pushed by the producer, in order. -/
def pushedOf : List BufOp → List Nat
  | [] => []
  | .push d :: ops => d ++ pushedOf ops
  | .callback _ :: ops => pushedOf ops

/-! ## WAV codec (src/audio/wav.rs) -/

structure WavSpec where
  channels : Nat
  sample_rate : Nat
  bits_per_sample : Nat
  sample_format : SampleFormat
deriving DecidableEq, Repr

/-- A sample stored in a WAV file: an integer sample value, or a 32-bit
float sample represented by its four little-endian bytes (the identity
this code needs from the float type is only to_le_bytes and
from_le_bytes, which are inverse bijections on the byte level). -/
inductive WavSample
  | si (v : Int)
  | sf (bits : List Nat)
deriving DecidableEq, Repr

/-- An opened hound reader: its declared spec and the sample stream. -/
structure WavReader where
  spec : WavSpec
  samples : List WavSample
deriving DecidableEq, Repr

def i16_to_le_bytes (v : Int) : List Nat :=
  let n := (v % (2 ^ 16 : Int)).toNat
  [n % 256, (n / 2 ^ 8) % 256]

def i32_to_le_bytes (v : Int) : List Nat :=
  let n := (v % (2 ^ 32 : Int)).toNat
  [n % 256, (n / 2 ^ 8) % 256, (n / 2 ^ 16) % 256, (n / 2 ^ 24) % 256]

/-- Outcome of WavFileRead::read: a panic, an error string, or the byte
count together with the updated caller buffer. -/
inductive ReadOutcome
  | crash
  | err
  | ok (n : Nat) (data : List Nat)
deriving DecidableEq, Repr

/-- The body of read_i16_samples iterates the requested samples and
converts each to little-endian bytes; requesting an i16 from a stream
whose element is not an integer sample is a hound error, propagated
with the question-mark operator (the bytes written before the error are
then discarded by every caller). -/
def collectI16 : List WavSample → Option (List Nat)
  | [] => some []
  | .si v :: rest =>
    match collectI16 rest with
    | some bs => some (i16_to_le_bytes v ++ bs)
    | none => none
  | .sf _ :: _ => none

def collectI32 : List WavSample → Option (List Nat)
  | [] => some []
  | .si v :: rest =>
    match collectI32 rest with
    | some bs => some (i32_to_le_bytes v ++ bs)
    | none => none
  | .sf _ :: _ => none

def collectF32 : List WavSample → Option (List Nat)
  | [] => some []
  | .sf bits :: rest =>
    match collectF32 rest with
    | some bs => some (bits ++ bs)
    | none => none
  | .si _ :: _ => none

/-- Translation of read_i16_samples: take data.len() / 2 samples (the
inner bound check pos + 2 > data.len() can then never fire), write them
from position 0, and return the count of bytes written; the rest of the
caller buffer keeps its old contents. -/
def read_i16_samples (samples : List WavSample) (data : List Nat) :
    Option (Nat × List Nat) :=
  match collectI16 (samples.take (data.length / 2)) with
  | some bs => some (bs.length, bs ++ data.drop bs.length)
  | none => none

def read_i32_samples (samples : List WavSample) (data : List Nat) :
    Option (Nat × List Nat) :=
  match collectI32 (samples.take (data.length / 4)) with
  | some bs => some (bs.length, bs ++ data.drop bs.length)
  | none => none

def read_f32_samples (samples : List WavSample) (data : List Nat) :
    Option (Nat × List Nat) :=
  match collectF32 (samples.take (data.length / 4)) with
  | some bs => some (bs.length, bs ++ data.drop bs.length)
  | none => none

/-- Translation of WavFileRead::read.  With no opened reader the
if-let body is skipped and the function falls through to Ok(0), leaving
the caller buffer untouched.  With a reader, the dispatch on the spec:
Int 16 and Int 32 and Float 32 run the conversion loops, Float 64 hits
the unimplemented marker (a panic), and every other combination returns
the unsupported-bit-depth error. -/
def WavFileRead.read (reader : Option WavReader) (data : List Nat) : ReadOutcome :=
  match reader with
  | some r =>
    match r.spec.sample_format with
    | .int =>
      match r.spec.bits_per_sample with
      | 16 =>
        match read_i16_samples r.samples data with
        | some (n, d) => .ok n d
        | none => .err
      | 32 =>
        match read_i32_samples r.samples data with
        | some (n, d) => .ok n d
        | none => .err
      | _ => .err
    | .float =>
      match r.spec.bits_per_sample with
      | 32 =>
        match read_f32_samples r.samples data with
        | some (n, d) => .ok n d
        | none => .err
      | 64 => .crash
      | _ => .err
  | none => .ok 0 data

/-- An opened hound writer: its spec and the samples written so far. -/
structure WavWriter where
  spec : WavSpec
  written : List WavSample
deriving DecidableEq, Repr

inductive WriteOutcome
  | crash
  | err
  | ok (w : WavWriter)
deriving DecidableEq, Repr

/-- The whole chunks of the given size produced by data.chunks(size):
the loop breaks on the trailing chunk shorter than size, so trailing
bytes that do not form a whole sample are dropped.  The size argument
is 2 or 4 at every call site. -/
def full_chunks (size : Nat) (data : List Nat) : List (List Nat) :=
  if _h : 0 < size ∧ size ≤ data.length then
    data.take size :: full_chunks size (data.drop size)
  else []
termination_by data.length
decreasing_by
  simp only [List.length_drop]
  omega

def i16_from_le_bytes (c : List Nat) : Int :=
  let n : Nat := c.getD 0 0 % 256 + 2 ^ 8 * (c.getD 1 0 % 256)
  if n < 2 ^ 15 then (n : Int) else (n : Int) - 2 ^ 16

def i32_from_le_bytes (c : List Nat) : Int :=
  let n : Nat := c.getD 0 0 % 256 + 2 ^ 8 * (c.getD 1 0 % 256)
    + 2 ^ 16 * (c.getD 2 0 % 256) + 2 ^ 24 * (c.getD 3 0 % 256)
  if n < 2 ^ 31 then (n : Int) else (n : Int) - 2 ^ 32

/-- The per-chunk body of the write loop in WavFileWrite::write: the
match on (sample_format, bits_per_sample).  The arms Int 16, Int 32 and
Float 32 convert the chunk from little-endian bytes; every other arm is
a todo marker, i.e. a panic inside the conversion loop. -/
def write_chunk (fmt : SampleFormat) (bits : Nat) (chunk : List Nat) :
    RResult WavSample :=
  match fmt with
  | .int =>
    match bits with
    | 16 => .ret (.si (i16_from_le_bytes chunk))
    | 32 => .ret (.si (i32_from_le_bytes chunk))
    | _ => .crash
  | .float =>
    match bits with
    | 32 => .ret (.sf chunk)
    | _ => .crash

def write_samples (fmt : SampleFormat) (bits : Nat) :
    List (List Nat) → RResult (List WavSample)
  | [] => .ret []
  | c :: cs =>
    match write_chunk fmt bits c with
    | .crash => .crash
    | .ret s =>
      match write_samples fmt bits cs with
      | .crash => .crash
      | .ret ss => .ret (s :: ss)

/-- Translation of WavFileWrite::write.  With no initialized writer the
function panics (Writer not initialized).  Otherwise the chunk size is
derived from bits_per_sample, rejecting anything other than 16 or 32
with an error before the loop, and the whole chunks are converted and
written. -/
def WavFileWrite.write (writer : Option WavWriter) (data : List Nat) : WriteOutcome :=
  match writer with
  | none => .crash
  | some w =>
    match (match w.spec.bits_per_sample with
           | 16 => some 2
           | 32 => some 4
           | _ => none) with
    | none => .err
    | some size =>
      match write_samples w.spec.sample_format w.spec.bits_per_sample
          (full_chunks size data) with
      | .crash => .crash
      | .ret ss => .ok { w with written := w.written ++ ss }

def AudioHeader.to_wavspec (h : AudioHeader) : WavSpec :=
  ⟨h.channels, h.sample_rate, h.bits_per_sample, h.sample_format⟩

/-- Translation of WavFileWrite::update_format: the first call creates
the hound writer with the spec derived from the header; a second call
hits the todo marker. -/
def WavFileWrite.update_format (writer : Option WavWriter) (h : AudioHeader) :
    RResult WavWriter :=
  match writer with
  | none => .ret ⟨h.to_wavspec, []⟩
  | some _ => .crash

/-- The bit-depth and sample-kind combinations the system supports. -/
def supportedMatrix (h : AudioHeader) : Prop :=
  (h.sample_format = .int ∧ (h.bits_per_sample = 16 ∨ h.bits_per_sample = 32))
    ∨ (h.sample_format = .float ∧ h.bits_per_sample = 32)

/-! ## Helper lemmas -/

theorem decU32_enc (n : Nat) (hn : n < 2 ^ 32) (rest : List Nat) :
    decU32 (encU32 n ++ rest) = some (n, rest) := by
  unfold encU32
  by_cases h1 : n < 251
  · simp [h1, decU32]
  · by_cases h2 : n < 2 ^ 16
    · simp only [h1, h2, if_true, if_false, List.cons_append, List.nil_append]
      simp only [decU32]
      norm_num
      omega
    · simp only [h1, h2, if_true, if_false, List.cons_append, List.nil_append]
      simp only [decU32]
      norm_num
      omega

theorem decU32_strict (n : Nat) (p q : List Nat)
    (hpq : p ++ q = encU32 n) (hq : q ≠ []) : decU32 p = none := by
  unfold encU32 at hpq
  by_cases h1 : n < 251
  · simp only [h1, if_true] at hpq
    match p, hpq with
    | [], _ => rfl
    | [x], hx => simp at hx; exact absurd hx.2 hq
  · by_cases h2 : n < 2 ^ 16
    · simp only [h1, h2, if_true, if_false] at hpq
      match p, hpq with
      | [], _ => rfl
      | [x], hx =>
        simp at hx
        simp [decU32, hx.1]
      | [x, a], hx =>
        simp at hx
        simp [decU32, hx.1]
      | [x, a, b], hx =>
        simp at hx
        exact absurd hx.2.2.2 hq
    · simp only [h1, h2, if_true, if_false] at hpq
      match p, hpq with
      | [], _ => rfl
      | [x], hx =>
        simp at hx
        simp [decU32, hx.1]
      | [x, a], hx =>
        simp at hx
        simp [decU32, hx.1]
      | [x, a, b], hx =>
        simp at hx
        simp [decU32, hx.1]
      | [x, a, b, c], hx =>
        simp at hx
        simp [decU32, hx.1]
      | [x, a, b, c, d], hx =>
        simp at hx
        exact absurd hx.2.2.2.2.2 hq

theorem decU32_enc_nil (n : Nat) (hn : n < 2 ^ 32) :
    decU32 (encU32 n) = some (n, []) := by
  simpa using decU32_enc n hn []

theorem append_split {α : Type} (A : List α) (B p q : List α) (h : p ++ q = A ++ B) :
    (∃ r, r ≠ [] ∧ p ++ r = A) ∨ (∃ p2, p = A ++ p2 ∧ p2 ++ q = B) := by
  induction A generalizing p with
  | nil =>
    right
    exact ⟨p, rfl, by simpa using h⟩
  | cons a A ih =>
    cases p with
    | nil =>
      left
      exact ⟨a :: A, by simp, rfl⟩
    | cons x p =>
      simp only [List.cons_append, List.cons.injEq] at h
      obtain ⟨hx, h'⟩ := h
      subst hx
      rcases ih p h' with ⟨r, hr, hpr⟩ | ⟨p2, hp2, hq2⟩
      · left
        exact ⟨r, hr, by rw [List.cons_append, hpr]⟩
      · right
        exact ⟨p2, by rw [hp2, List.cons_append], hq2⟩

theorem decodeAudioHeader_enc (h : AudioHeader) (hr : h.sample_rate < 2 ^ 32)
    (hc : h.channels < 256) (hb : h.bits_per_sample < 256) :
    decodeAudioHeader (encodeAudioHeader h) = some h := by
  obtain ⟨rate, ch, bits, fmt⟩ := h
  simp only at hr hc hb
  have hfi : fmt.toIdx < 2 ^ 32 := by cases fmt <;> decide
  have e2 : decU32 (encU32 fmt.toIdx) = some (fmt.toIdx, []) := by
    simpa using decU32_enc fmt.toIdx hfi []
  unfold decodeAudioHeader encodeAudioHeader
  rw [List.append_assoc, List.append_assoc, decU32_enc rate hr]
  simp only [List.cons_append, List.nil_append, decU8, e2]
  have hof : SampleFormat.ofIdx fmt.toIdx = some fmt := by cases fmt <;> rfl
  simp [hof, Nat.mod_eq_of_lt hc, Nat.mod_eq_of_lt hb]

theorem decodeAudioHeader_strict (h : AudioHeader) (hr : h.sample_rate < 2 ^ 32)
    (p q : List Nat) (hpq : p ++ q = encodeAudioHeader h) (hq : q ≠ []) :
    decodeAudioHeader p = none := by
  obtain ⟨rate, ch, bits, fmt⟩ := h
  unfold encodeAudioHeader at hpq
  simp only at hpq hr
  rw [List.append_assoc, List.append_assoc] at hpq
  rcases append_split (encU32 rate) _ p q hpq with ⟨r, hr0, hpr⟩ | ⟨p2, hp, h2⟩
  · unfold decodeAudioHeader
    rw [decU32_strict rate p r hpr hr0]
  · subst hp
    cases p2 with
    | nil => simp [decodeAudioHeader, decU32_enc_nil rate hr, decU8]
    | cons c p3 =>
      simp only [List.cons_append, List.nil_append, List.cons.injEq] at h2
      obtain ⟨-, h3⟩ := h2
      cases p3 with
      | nil => simp [decodeAudioHeader, decU32_enc rate hr, decU8]
      | cons b p4 =>
        simp only [List.cons_append, List.cons.injEq] at h3
        obtain ⟨-, h4⟩ := h3
        simp [decodeAudioHeader, decU32_enc rate hr, decU8,
          decU32_strict fmt.toIdx p4 q h4 hq]

/-! ## Claim theorems -/

/-- C1: the claim states that the server refuses a first message whose
magic number is wrong, accepting only byte sequences for which
check_client_hello_message holds.  In the code Server::expect_client_hello
accepts any positive-length read without looking at the bytes, so a
six-byte hello of zeros (wrong magic) passes the hello step; moreover
the unused checker check_client_hello_message rejects even the genuine
client hello, because it decodes the magic from the four-byte slice
data[0..4] while the varint encoding of the magic needs five bytes. -/
theorem C1_server_accepts_wrong_magic_hello :
    expect_client_hello (.bytes [0, 0, 0, 0, 0, 0]) = .value ()
      ∧ check_client_hello_message [0, 0, 0, 0, 0, 0] = false
      ∧ check_client_hello_message make_client_hello_message = false := by
  refine ⟨rfl, by decide, by decide⟩

/-- C2: the claim states that the drain-completion signal fires once per
empty-to-non-empty-to-empty cycle of the queue, so a trace with two full
drain cycles must send two signals.  Evaluating the callback model on
exactly such a trace (mono 16-bit: push one sample, drain, push another,
drain) shows the code sends a single signal: the one-shot notified flag
is set at the first empty observation and no code path resets it, so
the second cycle sends nothing. -/
theorem C2_second_drain_cycle_sends_no_signal :
    runOps 1 2 [.push [1, 2], .callback 1, .push [3, 4], .callback 1] ⟨[], false, 0⟩
      = .ret ([.decoded [1, 2], .decoded [3, 4]], ⟨[], true, 1⟩) := by
  decide

/-- C3 counterexample: the claim states a zero-byte read is treated as a
clean close and never as an error; in the code the Ok(0) branch of
expect_message_type builds an error (Connection closed by the client)
that propagates with the question-mark operator, terminating the session
as a failure, so the outcome of a zero-byte read is an error outcome. -/
theorem C3_counterexample_zero_read_is_error :
    ExpectOut.isErr (expect_message_type .closed) = true := by
  decide

/-- C3 (amended): each expect step maps a zero-byte read to the dedicated
connection-closed error: a branch of its own, distinct from the IoError
wrapper and from the failed-extract error, and it is the only read
result mapped there; the session then terminates with that error rather
than continuing. -/
theorem C3_amended_zero_read_dedicated_error :
    expect_protocol_info .closed = .ret .closedErr
      ∧ expect_message_type .closed = .closedErr
      ∧ expect_ok_message .closed = .closedErr
      ∧ expect_bye_message .closed = .closedErr
      ∧ (ExpectOut.closedErr : ExpectOut MessageType) ≠ .ioErr
      ∧ (ExpectOut.closedErr : ExpectOut MessageType) ≠ .extractErr
      ∧ (∀ data, expect_message_type (.bytes data) ≠ .closedErr)
      ∧ expect_message_type .ioError = .ioErr := by
  refine ⟨rfl, rfl, rfl, rfl, by decide, by decide, ?_, rfl⟩
  intro data
  unfold expect_message_type
  cases h : extract_message_type data <;> simp [h]

/-- C4 counterexample: the claim quantifies over every strict prefix of
a valid encoded message, including the empty prefix, and states the
decode functions return the need-more-bytes result and never panic.
The empty list is a strict prefix of the valid encoded server hello,
and extract_protocol_info panics on it: the slice data[1..] is out of
bounds for an empty input. -/
theorem C4_counterexample_empty_prefix_panics :
    ([] : List Nat) ++ make_server_hello_message = make_server_hello_message
      ∧ make_server_hello_message ≠ []
      ∧ extract_protocol_info [] = .crash := by
  refine ⟨rfl, by decide, rfl⟩

/-- C4 (amended): on every strict prefix of a valid encoded message the
decode functions return the need-more-bytes result None and never a
spurious message, except on the empty prefix, where extract_message_type
still returns None but extract_protocol_info and extract_wav_header
panic on the out-of-bounds slice data[1..]. -/
theorem C4_amended_truncated_decode_needs_more_bytes :
    (∀ t : MessageType, ∀ p q : List Nat,
        p ++ q = encU32 t.toIdx → q ≠ [] → extract_message_type p = none)
      ∧ (∀ p q : List Nat,
          p ++ q = make_server_hello_message → q ≠ [] → p ≠ [] →
            extract_protocol_info p = .ret none)
      ∧ (∀ h : AudioHeader, h.sample_rate < 2 ^ 32 →
          ∀ p q : List Nat,
            p ++ q = audio_header_to_bytes h → q ≠ [] → p ≠ [] →
              extract_wav_header p = .ret none)
      ∧ extract_protocol_info [] = .crash
      ∧ extract_wav_header [] = .crash := by
  refine ⟨?_, ?_, ?_, rfl, rfl⟩
  · intro t p q hpq hq
    have ht : encU32 t.toIdx = [t.toIdx] := by cases t <;> rfl
    rw [ht] at hpq
    cases p with
    | nil => rfl
    | cons x p' =>
      simp only [List.cons_append, List.cons.injEq] at hpq
      exact absurd (List.append_eq_nil.mp hpq.2).2 hq
  · intro p q hpq hq hp
    have hs : make_server_hello_message = [0, 1] := by decide
    rw [hs] at hpq
    cases p with
    | nil => exact absurd rfl hp
    | cons x p' =>
      simp only [List.cons_append, List.cons.injEq] at hpq
      obtain ⟨hx, h2⟩ := hpq
      cases p' with
      | nil =>
        subst hx
        rfl
      | cons y p'' =>
        simp only [List.cons_append, List.cons.injEq] at h2
        exact absurd (List.append_eq_nil.mp h2.2).2 hq
  · intro h hr p q hpq hq hp
    have h5 : audio_header_to_bytes h = 5 :: encodeAudioHeader h := by
      unfold audio_header_to_bytes
      rfl
    rw [h5] at hpq
    cases p with
    | nil => exact absurd rfl hp
    | cons x p' =>
      simp only [List.cons_append, List.cons.injEq] at hpq
      obtain ⟨hx, h2⟩ := hpq
      unfold extract_wav_header
      rw [if_neg (by simp)]
      simp only [List.drop_succ_cons, List.drop_zero]
      rw [decodeAudioHeader_strict h hr p' q h2 hq]

/-- C4 witness: the one-byte strict prefix of the encoded audio-header
message for the format 8000 Hz, mono, 16-bit integer is reported as
needing more bytes. -/
theorem C4_witness_one_byte_header_prefix :
    extract_wav_header [5] = RResult.ret none :=
  C4_amended_truncated_decode_needs_more_bytes.2.2.1 ⟨8000, 1, 16, .int⟩
    (by norm_num) [5] [251, 64, 31, 1, 16, 0] (by decide) (by decide) (by decide)

/-- C5: for every audio header within the supported matrix (and with the
field bounds imposed by the Rust types u32 and u8), decoding the encoded
header message recovers the header exactly, field for field. -/
theorem C5_audio_header_roundtrip (h : AudioHeader) (hr : h.sample_rate < 2 ^ 32)
    (hc : h.channels < 256) (hm : supportedMatrix h) :
    extract_wav_header (audio_header_to_bytes h) = .ret (some h) := by
  have hb : h.bits_per_sample < 256 := by
    rcases hm with ⟨-, hb | hb⟩ | ⟨-, hb⟩ <;> omega
  have h5 : audio_header_to_bytes h = 5 :: encodeAudioHeader h := by
    unfold audio_header_to_bytes
    rfl
  rw [h5]
  unfold extract_wav_header
  rw [if_neg (by simp)]
  simp only [List.drop_succ_cons, List.drop_zero]
  rw [decodeAudioHeader_enc h hr hc hb]

/-- C5 witness: the round trip at the concrete header 8000 Hz, mono,
16-bit integer. -/
theorem C5_witness_roundtrip_8000_mono_16 :
    extract_wav_header (audio_header_to_bytes ⟨8000, 1, 16, .int⟩)
      = RResult.ret (some ⟨8000, 1, 16, .int⟩) :=
  C5_audio_header_roundtrip ⟨8000, 1, 16, .int⟩ (by norm_num) (by norm_num)
    (Or.inl ⟨rfl, Or.inl rfl⟩)

/-- C8: the claim states that every sample-kind and bit-depth
combination outside the supported matrix is rejected by the WAV codec
with an error result and never panics inside the per-sample conversion
loop.  In the code two such combinations panic instead: reading a
64-bit float spec hits the unimplemented marker, and writing with a
16-bit float spec passes the chunk-size dispatch (which looks only at
the bit depth) and hits the todo marker inside the conversion loop.
Integer specs with an unsupported depth are indeed rejected at the
boundary on both paths. -/
theorem C8_unsupported_combination_panics :
    WavFileWrite.write (some ⟨⟨1, 8000, 16, .float⟩, []⟩) [0, 0] = .crash
      ∧ WavFileRead.read (some ⟨⟨1, 8000, 64, .float⟩, []⟩) (List.replicate 8 0) = .crash
      ∧ WavFileRead.read (some ⟨⟨1, 8000, 8, .int⟩, []⟩) [0, 0] = .err
      ∧ WavFileWrite.write (some ⟨⟨1, 8000, 8, .int⟩, []⟩) [0, 0] = .err := by
  refine ⟨?_, by decide, by decide, ?_⟩
  · simp [WavFileWrite.write, full_chunks, write_samples, write_chunk]
  · simp [WavFileWrite.write]

/-- C6: when the playback queue holds fewer bytes than one full frame,
the consumer callback writes the equilibrium (silence) value to every
sample of the output frame and removes nothing from the queue; the model
is a total function on the queue state, matching the absence of any
wait in the source path. -/
theorem C6_underrun_writes_silence (channels sample_size : Nat) (s : CbState)
    (h : s.buf.length < channels * sample_size) :
    processFrame channels sample_size s
      = .ret (List.replicate channels .equilibrium, drainCheck s)
      ∧ (drainCheck s).buf = s.buf := by
  constructor
  · unfold processFrame
    rw [if_neg (by omega)]
  · unfold drainCheck
    split <;> rfl

/-- C6 witness: a stereo 16-bit frame needs four bytes; with three bytes
queued the callback emits a frame of two equilibrium samples and leaves
the three bytes in place. -/
theorem C6_witness_three_bytes_stereo16 :
    processFrame 2 2 ⟨[1, 2, 3], false, 0⟩
        = .ret (List.replicate 2 .equilibrium, drainCheck ⟨[1, 2, 3], false, 0⟩)
      ∧ (drainCheck ⟨[1, 2, 3], false, 0⟩).buf = [1, 2, 3] :=
  C6_underrun_writes_silence 2 2 ⟨[1, 2, 3], false, 0⟩ (by decide)

theorem drainCheck_buf (s : CbState) : (drainCheck s).buf = s.buf := by
  unfold drainCheck
  split <;> rfl

theorem consumedOf_append (a b : List OutSample) :
    consumedOf (a ++ b) = consumedOf a ++ consumedOf b := by
  induction a with
  | nil => rfl
  | cons x a ih => cases x <;> simp [consumedOf, ih]

theorem consumedOf_replicate_equilibrium (n : Nat) :
    consumedOf (List.replicate n .equilibrium) = [] := by
  induction n with
  | zero => rfl
  | succ n ih => simpa [List.replicate_succ, consumedOf] using ih

theorem popFrameSamples_spec (n sz : Nat) (buf : List Nat) (h : n * sz ≤ buf.length) :
    ∃ outs, popFrameSamples n sz buf = .ret (outs, buf.drop (n * sz))
      ∧ consumedOf outs = buf.take (n * sz) := by
  induction n generalizing buf with
  | zero => exact ⟨[], by simp [popFrameSamples], by simp [consumedOf]⟩
  | succ n ih =>
    have hmul : (n + 1) * sz = sz + n * sz := by ring
    have hsz : sz ≤ buf.length := by omega
    have hrec : n * sz ≤ (buf.drop sz).length := by
      simp only [List.length_drop]
      omega
    obtain ⟨outs, hpop, hcons⟩ := ih (buf.drop sz) hrec
    refine ⟨.decoded (buf.take sz) :: outs, ?_, ?_⟩
    · unfold popFrameSamples extract_bytes_from_buf
      rw [if_neg (by omega)]
      simp only [hpop, List.drop_drop]
      rw [hmul]
    · simp only [consumedOf, hcons, hmul]
      rw [List.take_add]

theorem processFrame_spec (channels sample_size : Nat) (s : CbState) :
    ∃ outs s2, processFrame channels sample_size s = .ret (outs, s2)
      ∧ consumedOf outs ++ s2.buf = s.buf := by
  unfold processFrame
  by_cases hfull : channels * sample_size ≤ s.buf.length
  · obtain ⟨outs, hpop, hcons⟩ := popFrameSamples_spec channels sample_size s.buf hfull
    refine ⟨outs, drainCheck { s with buf := s.buf.drop (channels * sample_size) }, ?_, ?_⟩
    · rw [if_pos hfull, hpop]
    · rw [drainCheck_buf, hcons]
      exact List.take_append_drop _ _
  · refine ⟨List.replicate channels .equilibrium, drainCheck s, ?_, ?_⟩
    · rw [if_neg hfull]
    · rw [drainCheck_buf, consumedOf_replicate_equilibrium]
      rfl

theorem runCallback_spec (channels sample_size k : Nat) (s : CbState) :
    ∃ outs s2, runCallback channels sample_size k s = .ret (outs, s2)
      ∧ consumedOf outs ++ s2.buf = s.buf := by
  induction k generalizing s with
  | zero => exact ⟨[], s, rfl, rfl⟩
  | succ k ih =>
    obtain ⟨outs1, s1, hp, hc1⟩ := processFrame_spec channels sample_size s
    obtain ⟨outs2, s2, hr, hc2⟩ := ih s1
    refine ⟨outs1 ++ outs2, s2, ?_, ?_⟩
    · unfold runCallback
      simp [hp, hr]
    · rw [consumedOf_append, List.append_assoc, hc2, hc1]

theorem runOps_spec (channels sample_size : Nat) (ops : List BufOp) (s : CbState) :
    ∃ outs s2, runOps channels sample_size ops s = .ret (outs, s2)
      ∧ consumedOf outs ++ s2.buf = s.buf ++ pushedOf ops := by
  induction ops generalizing s with
  | nil => exact ⟨[], s, rfl, by simp [pushedOf, consumedOf]⟩
  | cons op ops ih =>
    cases op with
    | push d =>
      obtain ⟨outs, s2, hrun, hinv⟩ := ih (writePush d s)
      refine ⟨outs, s2, hrun, ?_⟩
      rw [hinv]
      simp [writePush, pushedOf]
    | callback k =>
      obtain ⟨outs1, s1, hcb, hc1⟩ := runCallback_spec channels sample_size k s
      obtain ⟨outs2, s2, hrun, hinv⟩ := ih s1
      refine ⟨outs1 ++ outs2, s2, ?_, ?_⟩
      · unfold runOps
        simp [hcb, hrun]
      · rw [consumedOf_append, List.append_assoc, hinv, ← List.append_assoc, hc1,
          pushedOf]

/-- C7: for every serialized interleaving of producer pushes and
consumer callbacks starting from the empty queue, the run never panics,
and the bytes consumed by the callback followed by the bytes still in
the queue are exactly the bytes ever pushed, in push order: nothing is
dropped, nothing is reordered. -/
theorem C7_fifo_conservation (channels sample_size : Nat) (ops : List BufOp) :
    ∃ outs s2, runOps channels sample_size ops ⟨[], false, 0⟩ = .ret (outs, s2)
      ∧ consumedOf outs ++ s2.buf = pushedOf ops := by
  obtain ⟨outs, s2, hrun, hinv⟩ := runOps_spec channels sample_size ops ⟨[], false, 0⟩
  exact ⟨outs, s2, hrun, by simpa using hinv⟩

/-- C9 counterexample: the claim states that a write before the format
is set yields an error result or a no-op, not a crash; in the code the
write with an uninitialized writer panics (Writer not initialized). -/
theorem C9_counterexample_write_before_format_panics :
    WavFileWrite.write none [0, 0] = .crash := rfl

/-- C9 (amended): for every byte slice, calling the file-sink write
operation before update_format has initialized the writer panics with
the deliberate guard (Writer not initialized): the call is rejected
loudly rather than returning an error result or being deferred. -/
theorem C9_amended_write_before_format_always_panics :
    ∀ data : List Nat, WavFileWrite.write none data = .crash := by
  intro data
  rfl

/-- C10: calling WavFileRead::read before a file has been opened skips
the if-let body and returns Ok(0), the same result an exhausted reader
produces at end of stream, and the caller buffer is returned with its
contents unchanged. -/
theorem C10_read_before_open_returns_ok_zero :
    (∀ data : List Nat, WavFileRead.read none data = .ok 0 data)
      ∧ (∀ data : List Nat,
          WavFileRead.read (some ⟨⟨1, 8000, 16, .int⟩, []⟩) data = .ok 0 data) := by
  constructor
  · intro data
    rfl
  · intro data
    simp [WavFileRead.read, read_i16_samples, collectI16]

end RStream
